import Mathlib

/-!
Shallow embedding of the Upstream desktop client (oscoin/governance repository)
for verification of its natural-language specification.

The embedding translates the TypeScript sources:
  * `ui/src/remote.ts` — the remote-data store (NotAsked/Loading/Success/Error);
  * `ui/src/screen/project/source.ts` — the project source screen
    (path/revision selection, abortable fetches, commit grouping,
    merge-request commit resolution);
  * `ui/src/router.ts` (source file `unnamed/part_007`) — the history-based router;
  * `ui/src/ipc.ts` (source file `unnamed/part_011`) and `native/main.ts` —
    the Electron IPC surface and external-link policy.

Stateful TypeScript (svelte stores, AbortControllers) becomes explicit state
passing; `await`ed network calls become oracle parameters carrying the outcome
the promise settled with; side effects that the claims talk about (aborting a
request, starting a fetch, writing to a store) are recorded in an explicit
event trace. JS `number` timestamps are embedded as `Int`.

A few modules of the repository are referenced by the translated code but are
absent from the source tree (`ui/src/error.ts`, parts of `ui/src/source.ts`,
`native/ipc-types.ts`); their definitions are modelled from the specification
and are marked `Modelled from the spec:` in their doc comments.
-/

namespace Upstream

/-! ## `ui/src/error.ts` (modelled) -/

/-- Modelled from the spec: `ui/src/error.ts` is not in the source tree; its
error-code enum is referenced by `ui/src/remote.ts` (`error.Code.RequestAbortError`)
and `ui/src/screen/project/source.ts` (`error.Code.CommitFetchFailure`).  The spec
says "abort errors are deliberately suppressed/treated as benign", so the code
distinguishes the abort code from all others. -/
inductive Code where
  | RequestAbortError
  | CommitFetchFailure
  | UnknownException
deriving DecidableEq, Repr

/-- Modelled from the spec: the uniform error value (`error.Error`) that stores
carry in their error variant ("Errors from REST calls are caught and surfaced
via a uniform error-state variant in each store"). -/
structure Error where
  code : Code
  message : String
deriving DecidableEq, Repr

/-- A raw JavaScript exception as observed by `catch` blocks: the translated
code inspects its `name` field (`err.name === "AbortError"`). -/
structure Exception where
  name : String
  message : String
deriving DecidableEq, Repr

/-- Modelled from the spec: `error.fromException` (in the absent
`ui/src/error.ts`) converts a caught exception into the uniform `Error`; per
the spec abort errors must stay recognisable as benign, so an exception named
`AbortError` maps to `Code.RequestAbortError` and any other exception maps to
a non-abort code. -/
def fromException (e : Exception) : Error :=
  if e.name = "AbortError" then
    { code := Code.RequestAbortError, message := e.message }
  else
    { code := Code.UnknownException, message := e.message }

/-! ## `ui/src/remote.ts` -/

namespace remote

/-- `ui/src/remote.ts` lines 5–10: fetch lifecycle status. -/
inductive Status where
  | NotAsked
  | Loading
  | Error
  | Success
deriving DecidableEq, Repr

/-- `ui/src/remote.ts` lines 12–16: the tagged union held by a remote-data
store. -/
inductive Data (T : Type) where
  | notAsked
  | loading
  | success (data : T)
  | error (error : Upstream.Error)

/-- The `status` discriminant of a `Data` value. -/
def Data.status {T : Type} : Data T → Status
  | .notAsked => Status.NotAsked
  | .loading => Status.Loading
  | .success _ => Status.Success
  | .error _ => Status.Error

/-- `createStore` line 62: `initialState = { status: Status.NotAsked }`. -/
def initialState (T : Type) : Data T := Data.notAsked

/-- `createStore` line 115: `loading: () => updateInternalStore(Status.Loading)`. -/
def loading {T : Type} (_ : Data T) : Data T := Data.loading

/-- `createStore` lines 113–114: `success` overwrites the state with
`{ status: Success, data: response }`. -/
def success {T : Type} (response : T) (_ : Data T) : Data T := Data.success response

/-- `createStore` lines 116–120: `error` drops errors whose code is
`RequestAbortError` and otherwise overwrites the state with the error
variant. -/
def errorUpdate {T : Type} (err : Upstream.Error) (s : Data T) : Data T :=
  if err.code ≠ Code.RequestAbortError then Data.error err else s

/-- `createStore` line 98: `reset` puts the store back to `NotAsked`. -/
def reset {T : Type} (_ : Data T) : Data T := Data.notAsked

/-- `createStore` lines 104–108: `unwrap` returns the payload in the success
state and `undefined` otherwise. -/
def unwrap {T : Type} : Data T → Option T
  | .success d => some d
  | _ => none

/-- The outcome an awaited promise settled with. -/
inductive Outcome (T : Type) where
  | resolved (val : T)
  | rejected (err : Exception)

/-- `ui/src/remote.ts` lines 154–169, `remote.fetch`: the synchronous part
sets the store to loading when it is `NotAsked`; the continuation applies the
optional `filter` to a resolved value and stores it via `success`, and stores
a rejected exception via `error ∘ fromException`.  Returns the state after the
synchronous part and the final state after the promise settles. -/
def fetch {T : Type} (s : Data T) (req : Outcome T) (filter : Option (T → T)) :
    Data T × Data T :=
  let s1 := if s.status = Status.NotAsked then loading s else s
  match req with
  | .resolved val =>
      (s1, success (match filter with | some f => f val | none => val) s1)
  | .rejected err =>
      (s1, errorUpdate (fromException err) s1)

end remote

end Upstream

namespace Upstream

/-! ## `ui/src/router.ts` (source file `unnamed/part_007`) -/

namespace router

/-- `unnamed/part_007` lines 5–17: the route union. -/
inductive Route where
  | empty
  | designSystemGuide
  | lock
  | onboarding
  | profile (activeTab : String)
  | project (activeTab : String) (urn : String) (commitHash : String)
  | settings
deriving DecidableEq, Repr

/-- `unnamed/part_007` lines 21–23: `push` appends the new route to the
history. -/
def push (newRoute : Route) (history : List Route) : List Route :=
  history ++ [newRoute]

/-- `unnamed/part_007` lines 25–27: `pop` is `history.slice(0, -1)`, dropping
the last element (the empty history stays empty). -/
def pop (history : List Route) : List Route :=
  history.dropLast

/-- `unnamed/part_007` lines 29–38: the derived `routeStore` yields
`{ type: "empty" }` on the empty history and `state.slice(-1)[0]` (the last
element) otherwise. -/
def routeStore (state : List Route) : Route :=
  if state.length = 0 then Route.empty else (state.getLast?).getD Route.empty

end router

/-! ## `ui/src/proxy/source.ts` and `ui/src/source.ts` types -/

namespace source

/-- `ui/src/proxy/source.ts` lines 10–13. -/
structure Person where
  email : String
  name : String
deriving DecidableEq, Repr

/-- `ui/src/proxy/source.ts` lines 19–26: a commit header; `committerTime` is
a Unix timestamp in seconds. -/
structure CommitHeader where
  author : Person
  committer : Person
  committerTime : Int
  description : String
  sha1 : String
  summary : String
deriving DecidableEq, Repr

/-- `ui/src/proxy/source.ts` lines 28–31. -/
inductive ObjectType where
  | Blob
  | Tree
deriving DecidableEq, Repr

/-- `ui/src/proxy/source.ts` lines 33–37. -/
structure Info where
  name : String
  objectType : ObjectType
  lastCommit : CommitHeader
deriving DecidableEq, Repr

/-- `ui/src/proxy/source.ts` lines 65–67: blob content, either textual or
binary. -/
inductive BlobContent where
  | text (html : Bool) (content : String)
  | binary
deriving DecidableEq, Repr

/-- `ui/src/proxy/source.ts` lines 39–42 and 63: `Blob = SourceObject &
BlobContent`. -/
structure Blob where
  path : String
  info : Info
  content : BlobContent
deriving DecidableEq, Repr

/-- `ui/src/proxy/source.ts` lines 83–87. -/
inductive RevisionType where
  | Branch
  | Tag
  | Sha
deriving DecidableEq, Repr

/-- `ui/src/proxy/source.ts` lines 89–102: a revision selector, one of
branch/tag (carrying a name) or a sha (whose hash is carried in the same
field). -/
structure Revision where
  type : RevisionType
  name : String
deriving DecidableEq, Repr

/-- Modelled from the spec: `ui/src/source.ts` is not in the source tree; its
`Tree` type (returned from the proxy's `source/tree` endpoint) carries,
like `SourceObject`, an `info` with the last commit, which is all the screen
code reads (`tree.info.lastCommit`). -/
structure Tree where
  path : String
  info : Info
deriving DecidableEq, Repr

/-- Modelled from the spec: the `Readme` type of the absent `ui/src/source.ts`;
consumed opaquely by the screen code. -/
structure Readme where
  path : String
  content : String
deriving DecidableEq, Repr

/-- Modelled from the spec: the `Stats` of a fetched commit history
(`ui/src/source.ts` is absent); the screen code reads and overrides its
`commits` counter. -/
structure Stats where
  branches : Nat
  commits : Nat
  contributors : Nat
deriving DecidableEq, Repr

/-- Modelled from the spec: the `CommitsHistory` returned by `fetchCommits`
in the absent `ui/src/source.ts`: the commit list plus its stats. -/
structure CommitsHistory where
  stats : Stats
  history : List CommitHeader
deriving DecidableEq, Repr

/-- In-flight requests are identified by the `AbortController` the code
creates for them; the embedding numbers the controllers. -/
abbrev RequestId := Nat

/-- Modelled from the spec: `SelectedPath` of the absent `ui/src/source.ts`,
as used by the screen code: the selected path together with the
`AbortController` of the request currently in flight for it, if any. -/
structure SelectedPath where
  request : Option RequestId
  selected : String
deriving DecidableEq, Repr

/-- Modelled from the spec: `SelectedRevision` of the absent
`ui/src/source.ts`: the selected revision together with the request in flight
for it, if any. -/
structure SelectedRevision where
  request : Option RequestId
  selected : Revision
deriving DecidableEq, Repr

/-- Modelled from the spec: the `MergeRequest` type of the absent
`ui/src/source.ts`, as used by `fetchMergeRequestCommits`: it names the peer
that published it and its head commit. -/
structure MergeRequest where
  peer_id : String
  commit : String
deriving DecidableEq, Repr

end source

/-! ## `ui/src/screen/project/source.ts` — commit grouping -/

namespace screen

open source

/-- The calendar components `getFullYear()`, `getMonth()`, `getDate()` of a JS
`Date`, in that order of significance. -/
structure Day where
  year : Int
  month : Int
  day : Int
deriving DecidableEq, Repr

/-- The JS environment's local-time calendar: `civil t` gives the
(`getFullYear`, `getMonth`, `getDate`) components of `new Date(t)` for a
millisecond timestamp `t`, and `fmt` is `formatGroupTime`
(`toLocaleDateString`, lines 531–538), an opaque string rendering. -/
structure JsDate where
  civil : Int → Day
  fmt : Int → String

/-- Lexicographic order on calendar days (later years/months/days are
later). -/
def Day.le (a b : Day) : Prop :=
  a.year < b.year ∨
    (a.year = b.year ∧
      (a.month < b.month ∨ (a.month = b.month ∧ a.day ≤ b.day)))

instance : DecidablePred fun p : Day × Day => Day.le p.1 p.2 := by
  unfold Day.le; infer_instance

/-- The calendar day of a commit: `new Date(commit.committerTime * 1000)`
(line 510–511). -/
def dayOf (env : JsDate) (c : CommitHeader) : Day :=
  env.civil (c.committerTime * 1000)

/-- `source.ts` lines 70–73: a group of commits labelled with a formatted
day. -/
structure CommitGroup where
  time : String
  commits : List CommitHeader
deriving DecidableEq, Repr

/-- `source.ts` lines 64–67. -/
structure GrouppedCommitsHistory where
  history : List CommitGroup
  stats : Stats
deriving DecidableEq, Repr

/-- `source.ts` lines 499–507: the comparator passed to `commits.sort` orders
by descending `committerTime`. -/
def timeGe (a b : CommitHeader) : Prop := b.committerTime ≤ a.committerTime

instance : DecidableRel timeGe := fun a b => by unfold timeGe; infer_instance

instance : IsTotal CommitHeader timeGe :=
  ⟨fun a b => le_total b.committerTime a.committerTime⟩

instance : IsTrans CommitHeader timeGe :=
  ⟨fun _ _ _ h1 h2 => le_trans h2 h1⟩

/-- The stable sort `commits.sort(comparator)` of lines 499–507, embedded as
insertion sort with the comparator's order. -/
def sortByTime (commits : List CommitHeader) : List CommitHeader :=
  List.insertionSort timeGe commits

/-- `source.ts` lines 512–517: `isNewDay` — a fresh group is started when
there is no group yet or when some calendar component of the commit's date is
strictly below the current group's date. -/
def isNewDay (grouppedCommits : List CommitGroup) (groupDate : Option Day)
    (date : Day) : Bool :=
  grouppedCommits.isEmpty || groupDate.isNone ||
    match groupDate with
    | none => true
    | some gd =>
        decide (date.day < gd.day) || decide (date.month < gd.month) ||
          decide (date.year < gd.year)

/-- `grouppedCommits[grouppedCommits.length - 1].commits.push(commit)`
(line 526): append the commit to the last group. -/
def pushLast (c : CommitHeader) : List CommitGroup → List CommitGroup
  | [] => []
  | [g] => [{ g with commits := g.commits ++ [c] }]
  | g :: gs => g :: pushLast c gs

/-- One iteration of the `for` loop of `groupCommits` (lines 509–527), acting
on the loop state (the groups built so far, the current group's date). -/
def groupStep (env : JsDate) (st : List CommitGroup × Option Day)
    (c : CommitHeader) : List CommitGroup × Option Day :=
  let time := c.committerTime * 1000
  let date := env.civil time
  if isNewDay st.1 st.2 date then
    (pushLast c (st.1 ++ [{ time := env.fmt time, commits := [] }]), some date)
  else
    (pushLast c st.1, st.2)

/-- `source.ts` lines 495–529, `groupCommits`: sort descending by committer
time, then fold the grouping loop. -/
def groupCommits (env : JsDate) (commits : List CommitHeader) :
    List CommitGroup :=
  ((sortByTime commits).foldl (groupStep env) ([], none)).1

/-- `source.ts` lines 489–493, `groupCommitHistory`: group the history, keep
the stats. -/
def groupCommitHistory (env : JsDate) (history : CommitsHistory) :
    GrouppedCommitsHistory :=
  { history := groupCommits env history.history, stats := history.stats }

/-- Specification device for `groupCommits`: chunk an already sorted commit
list into day groups by structural recursion, carrying the current group
`acc` and its calendar day `d`.  `foldl (groupStep env)` over a sorted list
is proved to agree with it. -/
def chunkGo (env : JsDate) (d : Day) (acc : CommitGroup) :
    List CommitHeader → List CommitGroup
  | [] => [acc]
  | c :: cs =>
      if dayOf env c = d then
        chunkGo env d { acc with commits := acc.commits ++ [c] } cs
      else
        acc :: chunkGo env (dayOf env c)
          { time := env.fmt (c.committerTime * 1000), commits := [c] } cs

/-- JS `Array.prototype.findIndex`: index of the first match, `-1` when there
is none. -/
def jsFindIndex {α : Type} (p : α → Bool) : List α → Int
  | [] => -1
  | a :: as =>
      if p a then 0
      else
        let r := jsFindIndex p as
        if r = -1 then -1 else r + 1

/-- `source.ts` lines 407–457, `fetchMergeRequestCommits`, pure core: given
the default branch's fetched history and the merge request's fetched history,
compute the published `GrouppedCommitsHistory`.  `baseProjectLatestCommit` is
`history[0]` of the base history; commits from the first one whose `sha1`
equals its `sha1` on are dropped (`slice(0, nothingNewIdx)`), everything is
dropped when that sha does not occur (`nothingNewIdx === -1`) or the base
history is empty (`nothingNewIdx = 0`); the published stats override
`commits` with the published count. -/
def mergeRequestCommitsCore (env : JsDate) (base mrCommits : CommitsHistory) :
    GrouppedCommitsHistory :=
  let baseProjectLatestCommit := base.history.head?
  let nothingNewIdx : Int :=
    match baseProjectLatestCommit with
    | some c => jsFindIndex (fun ch => ch.sha1 = c.sha1) mrCommits.history
    | none => 0
  let newCommits :=
    mrCommits.history.take (if nothingNewIdx = -1 then 0 else nothingNewIdx.toNat)
  { history := groupCommits env newCommits,
    stats := { mrCommits.stats with commits := newCommits.length } }

/-! ### The source screen state machine -/

/-- Modelled from the spec: the `Project` DTO (`ui/src/project.ts` is present
but the screen reads only these fields): its URN and the default branch from
its metadata. -/
structure Project where
  urn : String
  defaultBranch : String
deriving DecidableEq, Repr

/-- Modelled from the spec: the `User` DTO; the screen reads only the peer
id. -/
structure User where
  peerId : String
deriving DecidableEq, Repr

/-- `source.ts` lines 17–22. -/
inductive ViewKind where
  | Aborted
  | Blob
  | Error
  | Root
deriving DecidableEq, Repr

/-- `source.ts` lines 24–43: the view of the code area.  The error variant
carries the caught exception (`error: err`, line 357). -/
inductive View where
  | aborted
  | blob (blob : source.Blob)
  | error (error : Exception)
  | root (readme : Option Readme)
deriving DecidableEq, Repr

/-- The `kind` discriminant of a `View`. -/
def View.kind : View → ViewKind
  | .aborted => ViewKind.Aborted
  | .blob _ => ViewKind.Blob
  | .error _ => ViewKind.Error
  | .root _ => ViewKind.Root

/-- `source.ts` lines 45–49. -/
structure Code where
  lastCommit : CommitHeader
  path : String
  view : View
deriving DecidableEq, Repr

/-- The icons of `menuItems` (Svelte components, opaque here). -/
inductive Icon where
  | file
  | commitIcon
  | revision
deriving DecidableEq, Repr

/-- `ui/src/menu`'s `HorizontalItem` as used by `menuItems` (lines 459–486). -/
structure HorizontalItem where
  icon : Icon
  title : String
  counter : Option Nat
  href : String
  looseActiveStateMatching : Bool
deriving DecidableEq, Repr

/-- Modelled from the spec: `ui/src/path.ts` route helpers used by
`menuItems`; opaque route strings derived from the project URN. -/
def projectSourceFiles (urn : String) : String :=
  "/projects/" ++ urn ++ "/source/files"

/-- Modelled from the spec: see `projectSourceFiles`. -/
def projectSourceCommits (urn : String) : String :=
  "/projects/" ++ urn ++ "/source/commits"

/-- Modelled from the spec: see `projectSourceFiles`. -/
def projectSourceMergeRequests (urn : String) : String :=
  "/projects/" ++ urn ++ "/source/merge-requests"

/-- `source.ts` lines 459–486, `menuItems`. -/
def menuItems (project : Project) (history : GrouppedCommitsHistory)
    (mergeRequests : List MergeRequest) : List HorizontalItem :=
  [ { icon := Icon.file, title := "Files", counter := none,
      href := projectSourceFiles project.urn, looseActiveStateMatching := true },
    { icon := Icon.commitIcon, title := "Commits",
      counter := some history.stats.commits,
      href := projectSourceCommits project.urn,
      looseActiveStateMatching := true },
    { icon := Icon.revision, title := "Merge Requests",
      counter := some mergeRequests.length,
      href := projectSourceMergeRequests project.urn,
      looseActiveStateMatching := true } ]

/-- `source.ts` lines 51–62, `Screen`: the payload of the screen store when a
project's source was loaded.  The `code` and `tree` writable stores are
embedded by their current values. -/
structure ScreenData where
  code : Code
  history : GrouppedCommitsHistory
  menuItems : List HorizontalItem
  mergeRequests : List MergeRequest
  peer : User
  project : Project
  revisions : List Revision
  selectedRevision : SelectedRevision
  tree : Tree
deriving DecidableEq, Repr

/-- The module-level mutable state of `source.ts`: the `pathStore`
(lines 75–78), the screen store (line 80), and a counter allocating ids for
fresh `AbortController`s. -/
structure ScreenState where
  pathStore : SelectedPath
  screenStore : remote.Data ScreenData
  nextRequestId : RequestId

/-- The observable effects of the screen operations, in program order. -/
inductive Event where
  | abortReq (id : RequestId)
  | fetchCommitsEv (revision : Revision)
  | fetchTreeEv (revision : Revision) (signal : Option RequestId)
  | fetchReadmeEv (revision : Revision) (signal : RequestId)
  | fetchBlobEv (path : String) (revision : Revision) (signal : RequestId)
  | setCode (code : Code)
  | setTree (tree : Tree)
deriving DecidableEq, Repr

/-- Whether an event starts a tree, readme or blob fetch. -/
def Event.isFetch : Event → Bool
  | .fetchCommitsEv _ => true
  | .fetchTreeEv _ _ => true
  | .fetchReadmeEv _ _ => true
  | .fetchBlobEv _ _ _ => true
  | _ => false

/-- The outcome of the network call awaited inside `fetchCode`: the readme of
`fetchRoot` (line 370–391), the blob of `fetchBlob` (lines 294–317), or the
exception the call threw. -/
inductive FetchOutcome where
  | readme (r : Option Readme)
  | blob (b : source.Blob)
  | thrown (e : Exception)
deriving DecidableEq, Repr

/-- `source.ts` lines 319–368, `fetchCode`: abort the request recorded in the
path store, record a fresh `AbortController` there, run the root or blob
fetch (its outcome is the oracle `res`), catch `AbortError` into the benign
`Aborted` view and any other exception into the `Error` view, and clear the
path store's request unless the fetch was aborted.  Returns the new state,
the computed `Code` and the trace of effects. -/
def fetchCode (_project : Project) (_peer : User) (revision : Revision)
    (tree : Tree) (path : String) (res : FetchOutcome) (st : ScreenState) :
    ScreenState × Code × List Event :=
  let abortEvs : List Event :=
    match st.pathStore.request with
    | some id => [Event.abortReq id]
    | none => []
  let request := st.nextRequestId
  let st1 : ScreenState :=
    { st with
      pathStore := { request := some request, selected := path },
      nextRequestId := st.nextRequestId + 1 }
  let fetchEv : Event :=
    if path = "" then Event.fetchReadmeEv revision request
    else Event.fetchBlobEv path revision request
  let code : Code :=
    match res with
    | .readme r =>
        { lastCommit := tree.info.lastCommit, path := "",
          view := View.root r }
    | .blob b =>
        { lastCommit := b.info.lastCommit, path := path,
          view := View.blob b }
    | .thrown err =>
        if err.name = "AbortError" then
          { lastCommit := tree.info.lastCommit, path := path,
            view := View.aborted }
        else
          { lastCommit := tree.info.lastCommit, path := path,
            view := View.error err }
  let st2 : ScreenState :=
    if code.view.kind ≠ ViewKind.Aborted then
      { st1 with pathStore := { request := none, selected := path } }
    else st1
  (st2, code, abortEvs ++ [fetchEv])

/-- `source.ts` lines 131–150, `selectPath`: when the screen is loaded and the
path differs from the selected one, fetch the code for it and write it to the
screen's `code` store unless the fetch was aborted. -/
def selectPath (path : String) (res : FetchOutcome) (st : ScreenState) :
    ScreenState × List Event :=
  match st.screenStore with
  | remote.Data.success data =>
      if st.pathStore.selected ≠ path then
        let r := fetchCode data.project data.peer data.selectedRevision.selected
          data.tree path res st
        if r.2.1.view.kind ≠ ViewKind.Aborted then
          ({ r.1 with
              screenStore := remote.Data.success { data with code := r.2.1 } },
            r.2.2 ++ [Event.setCode r.2.1])
        else (r.1, r.2.2)
      else (st, [])
  | _ => (st, [])

/-- `source.ts` lines 152–228, `selectRevision`: when the screen is loaded and
the requested revision differs (in type or name) from the selected one, abort
the request recorded for the current revision selection, allocate a fresh
`AbortController`, record it in `selectedRevision`, and start the commits and
tree fetches; once the tree arrives, `fetchCode` runs for the currently
selected path, and on success the `code` and `tree` stores and the screen
store are updated; a rejection of the commits or tree fetch puts the screen
store into the error state via `error.fromException`.  The oracles
`commitsRes`, `treeRes` and `codeRes` carry the outcomes of the awaited
calls. -/
def selectRevision (revision : Revision)
    (commitsRes : Except Exception CommitsHistory)
    (treeRes : Except Exception Tree)
    (codeRes : FetchOutcome) (env : JsDate) (st : ScreenState) :
    ScreenState × List Event :=
  match st.screenStore with
  | remote.Data.success data =>
      if data.selectedRevision.selected.type = revision.type ∧
          data.selectedRevision.selected.name = revision.name then
        (st, [])
      else
        let abortEvs : List Event :=
          match data.selectedRevision.request with
          | some id => [Event.abortReq id]
          | none => []
        let request := st.nextRequestId
        let st1 : ScreenState :=
          { st with
            nextRequestId := st.nextRequestId + 1,
            screenStore := remote.Data.success
              { data with
                selectedRevision :=
                  { request := some request, selected := revision } } }
        let evs1 := abortEvs ++
          [Event.fetchCommitsEv revision, Event.fetchTreeEv revision (some request)]
        match commitsRes, treeRes with
        | Except.ok history, Except.ok newTree =>
            let r := fetchCode data.project data.peer revision newTree
              st1.pathStore.selected codeRes st1
            let grouppedHistory := groupCommitHistory env history
            ({ r.1 with
                screenStore := remote.Data.success
                  { data with
                    code := r.2.1,
                    tree := newTree,
                    history := grouppedHistory,
                    menuItems :=
                      menuItems data.project grouppedHistory data.mergeRequests,
                    selectedRevision :=
                      { request := none, selected := revision } } },
              evs1 ++ r.2.2 ++ [Event.setCode r.2.1, Event.setTree newTree])
        | Except.error err, Except.ok newTree =>
            -- The commits fetch rejected, so the success continuation is
            -- skipped, but the tree/code branch of `Promise.all` still runs
            -- its side effects on the path store.
            let r := fetchCode data.project data.peer revision newTree
              st1.pathStore.selected codeRes st1
            ({ r.1 with
                screenStore :=
                  remote.errorUpdate (fromException err) r.1.screenStore },
              evs1 ++ r.2.2)
        | Except.error err, Except.error _ =>
            ({ st1 with
                screenStore :=
                  remote.errorUpdate (fromException err) st1.screenStore },
              evs1)
        | Except.ok _, Except.error err =>
            ({ st1 with
                screenStore :=
                  remote.errorUpdate (fromException err) st1.screenStore },
              evs1)
  | _ => (st, [])

end screen

/-! ## `ui/src/ipc.ts` (source file `unnamed/part_011`) and `native/main.ts` -/

namespace ipc

/-- `unnamed/part_011` line 4. -/
def CLIPBOARD_WRITETEXT : String := "IPC_CLIPBOARD_WRITETEXT"

/-- `unnamed/part_011` line 5. -/
def DIALOG_SHOWOPENDIALOG : String := "IPC_DIALOG_SHOWOPENDIALOG"

/-- `unnamed/part_011` line 6. -/
def GET_VERSION : String := "GET_VERSION"

/-- `unnamed/part_011` line 7. -/
def OPEN_PATH : String := "IPC_OPEN_PATH"

/-- A renderer-side call `window.electron.ipcRenderer.invoke(channel, arg?)`. -/
structure Invocation where
  channel : String
  arg : Option String
deriving DecidableEq, Repr

/-- `unnamed/part_011` lines 16–17: `getDirectoryPath` invokes
`DIALOG_SHOWOPENDIALOG` with no argument. -/
def getDirectoryPath : Invocation :=
  { channel := DIALOG_SHOWOPENDIALOG, arg := none }

/-- `unnamed/part_011` lines 19–20. -/
def getVersion : Invocation :=
  { channel := GET_VERSION, arg := none }

/-- `unnamed/part_011` lines 22–23. -/
def copyToClipboard (text : String) : Invocation :=
  { channel := CLIPBOARD_WRITETEXT, arg := some text }

/-- `unnamed/part_011` lines 25–26. -/
def openPath (path : String) : Invocation :=
  { channel := OPEN_PATH, arg := some path }

end ipc

namespace native

/-- Modelled from the spec: `native/ipc-types.ts` is not in the source tree;
`native/main.ts` registers its handlers under the members of its
`RendererMessage` enum, and the spec's IPC contract
(`DIALOG_SHOWOPENDIALOG`, `CLIPBOARD_WRITETEXT`, `OPEN_PATH`, `GET_VERSION`)
requires those members to carry the channel strings that the renderer side
(`unnamed/part_011`) invokes. -/
inductive RendererMessage where
  | DIALOG_SHOWOPENDIALOG
  | CLIPBOARD_WRITETEXT
  | OPEN_PATH
  | GET_VERSION
  | OPEN_URL
deriving DecidableEq, Repr

/-- Modelled from the spec: the channel string carried by each
`RendererMessage` member; see `RendererMessage`. -/
def RendererMessage.channel : RendererMessage → String
  | .DIALOG_SHOWOPENDIALOG => "IPC_DIALOG_SHOWOPENDIALOG"
  | .CLIPBOARD_WRITETEXT => "IPC_CLIPBOARD_WRITETEXT"
  | .OPEN_PATH => "IPC_OPEN_PATH"
  | .GET_VERSION => "GET_VERSION"
  | .OPEN_URL => "IPC_OPEN_URL"

/-- `native/main.ts` lines 142–173: the channels for which the main process
registers a handler through `ipcMain.handle`. -/
def registeredChannels : List String :=
  [ RendererMessage.channel RendererMessage.DIALOG_SHOWOPENDIALOG,
    RendererMessage.channel RendererMessage.CLIPBOARD_WRITETEXT,
    RendererMessage.channel RendererMessage.OPEN_PATH,
    RendererMessage.channel RendererMessage.GET_VERSION,
    RendererMessage.channel RendererMessage.OPEN_URL ]

/-- The ambient state of the Electron main process that the handlers read and
write: the application version and the system clipboard. -/
structure MainState where
  appVersion : String
  clipboard : String
deriving DecidableEq, Repr

/-- `native/main.ts` lines 167–169: the `GET_VERSION` handler resolves to
`app.getVersion()`. -/
def getVersionHandler (st : MainState) : String := st.appVersion

/-- `native/main.ts` lines 159–161: the `CLIPBOARD_WRITETEXT` handler writes
its text argument to the system clipboard. -/
def clipboardWriteTextHandler (text : String) (st : MainState) : MainState :=
  { st with clipboard := text }

/-- `native/main.ts` lines 142–157: the `DIALOG_SHOWOPENDIALOG` handler.  With
no window it resolves to `undefined` (`none`); otherwise it shows the open
dialog (whose selection is the oracle `filePaths`) and resolves to the single
selected path when there is exactly one, and to `""` otherwise. -/
def dialogShowOpenDialogHandler (window : Option Unit)
    (filePaths : List String) : Option String :=
  match window with
  | none => none
  | some _ =>
      if filePaths.length = 1 then some (filePaths.headD "")
      else some ""

/-- JS `String.prototype.toLowerCase`, on the ASCII alphabet; embedded over
the string's character list. -/
def jsToLowerCase (s : String) : String := String.mk (s.data.map Char.toLower)

/-- JS `String.prototype.startsWith`, embedded over the strings' character
lists. -/
def jsStartsWith (s pre : String) : Bool := pre.data.isPrefixOf s.data

/-- `native/main.ts` lines 187–196, `openExternalLink`: pass the URL to
`shell.openExternal` (returned as `some`) exactly when its lowercasing starts
with `http://` or `https://`; otherwise only warn (`none`). -/
def openExternalLink (url : String) : Option String :=
  if jsStartsWith (jsToLowerCase url) "http://" ∨
      jsStartsWith (jsToLowerCase url) "https://" then
    some url
  else
    none

/-- The result of a `webContents` navigation event handler: whether
`event.preventDefault()` was called, and the URL passed to
`shell.openExternal`, if any. -/
structure NavEventResult where
  preventedDefault : Bool
  openedExternal : Option String
deriving DecidableEq, Repr

/-- `native/main.ts` lines 100–103: the `will-navigate` handler prevents the
default action and routes the URL through `openExternalLink`. -/
def willNavigateHandler (url : String) : NavEventResult :=
  { preventedDefault := true, openedExternal := openExternalLink url }

/-- `native/main.ts` lines 105–108: the `new-window` handler prevents the
default action and routes the URL through `openExternalLink`. -/
def newWindowHandler (url : String) : NavEventResult :=
  { preventedDefault := true, openedExternal := openExternalLink url }

end native

/-! ## Concrete fixtures -/

namespace screen

open source

/-- A concrete commit header for concrete runs of the screen operations. -/
def sampleCommit : CommitHeader :=
  { author := { email := "alice@example.com", name := "alice" },
    committer := { email := "alice@example.com", name := "alice" },
    committerTime := 1600000000, description := "", sha1 := "deadbeef",
    summary := "init" }

/-- A concrete tree. -/
def sampleTree : Tree :=
  { path := "",
    info := { name := "", objectType := ObjectType.Tree,
              lastCommit := sampleCommit } }

/-- The branch `main`. -/
def mainBranch : Revision := { type := RevisionType.Branch, name := "main" }

/-- The branch `dev`. -/
def devBranch : Revision := { type := RevisionType.Branch, name := "dev" }

/-- A concrete loaded screen with no request in flight. -/
def sampleScreenData : ScreenData :=
  { code := { lastCommit := sampleCommit, path := "", view := View.root none },
    history := { history := [],
                 stats := { branches := 1, commits := 1, contributors := 1 } },
    menuItems := [], mergeRequests := [], peer := { peerId := "peer1" },
    project := { urn := "rad:git:project", defaultBranch := "main" },
    revisions := [mainBranch],
    selectedRevision := { request := none, selected := mainBranch },
    tree := sampleTree }

/-- A concrete screen state holding `sampleScreenData`. -/
def sampleScreenState : ScreenState :=
  { pathStore := { request := none, selected := "" },
    screenStore := remote.Data.success sampleScreenData,
    nextRequestId := 0 }

/-- A loaded screen with requests in flight for both the selected revision
(id 5) and the selected path (id 4). -/
def busyScreenData : ScreenData :=
  { sampleScreenData with
    selectedRevision := { request := some 5, selected := mainBranch } }

/-- A concrete screen state holding `busyScreenData`. -/
def busyScreenState : ScreenState :=
  { pathStore := { request := some 4, selected := "" },
    screenStore := remote.Data.success busyScreenData,
    nextRequestId := 6 }

/-- A concrete calendar environment. -/
def sampleEnv : JsDate :=
  { civil := fun _ => { year := 0, month := 0, day := 0 }, fmt := fun _ => "" }

/-- A second concrete commit header with a distinct sha. -/
def sampleCommitB : CommitHeader :=
  { author := { email := "bob@example.com", name := "bob" },
    committer := { email := "bob@example.com", name := "bob" },
    committerTime := 1600000100, description := "", sha1 := "cafe",
    summary := "more" }

end screen

end Upstream

namespace Upstream

/-! ## Claim theorems -/

/-- C1: Every value held by a remote-data store created with `createStore` is
exactly one of the four variants NotAsked, Loading, Success (carrying data),
or Error (carrying an error); the store starts in the NotAsked state, and
`reset()` returns it to NotAsked from any state. -/
theorem C1_remote_store_shape (T : Type) :
    (∀ d : remote.Data T,
        d = remote.Data.notAsked ∨ d = remote.Data.loading ∨
          (∃ v, d = remote.Data.success v) ∨
          (∃ e, d = remote.Data.error e)) ∧
    remote.initialState T = remote.Data.notAsked ∧
    (∀ d : remote.Data T, remote.reset d = remote.Data.notAsked) := by
  refine ⟨?_, rfl, fun _ => rfl⟩
  intro d
  cases d with
  | notAsked => exact Or.inl rfl
  | loading => exact Or.inr (Or.inl rfl)
  | success v => exact Or.inr (Or.inr (Or.inl ⟨v, rfl⟩))
  | error e => exact Or.inr (Or.inr (Or.inr ⟨e, rfl⟩))

/-- C4: `remote.fetch` first sets the store to Loading if and only if the
store is currently NotAsked, and then: if the promise resolves with value
`v`, the store ends in the Success state carrying `v` (or `filter v` when a
filter is given); if the promise rejects with a non-abort error, the store
ends in the Error state carrying that error converted by
`error.fromException`. -/
theorem C4_remote_fetch (T : Type) (s : remote.Data T) (req : remote.Outcome T)
    (filter : Option (T → T)) :
    ((s.status = remote.Status.NotAsked →
        (remote.fetch s req filter).1 = remote.Data.loading) ∧
      (s.status ≠ remote.Status.NotAsked → (remote.fetch s req filter).1 = s)) ∧
    (∀ v, req = remote.Outcome.resolved v →
      (remote.fetch s req filter).2 =
        remote.Data.success (match filter with | some f => f v | none => v)) ∧
    (∀ e, req = remote.Outcome.rejected e → e.name ≠ "AbortError" →
      (remote.fetch s req filter).2 = remote.Data.error (fromException e)) := by
  refine ⟨⟨fun h => ?_, fun h => ?_⟩, fun v hv => ?_, fun e he hname => ?_⟩
  · cases req <;> simp [remote.fetch, h, remote.loading]
  · cases req <;> simp [remote.fetch, h]
  · subst hv
    cases filter <;> simp [remote.fetch, remote.success]
  · subst he
    have hcode : (fromException e).code = Code.UnknownException := by
      simp [fromException, hname]
    simp [remote.fetch, remote.errorUpdate, hcode]

/-- Witness for C4 at a concrete store, promise outcome and filter. -/
theorem C4_remote_fetch_witness :
    (remote.fetch (remote.Data.notAsked : remote.Data Nat)
        (remote.Outcome.resolved 7) none).2 = remote.Data.success 7 ∧
    (remote.fetch (remote.Data.notAsked : remote.Data Nat)
        (remote.Outcome.rejected ⟨"TypeError", "boom"⟩) none).2 =
      remote.Data.error (fromException ⟨"TypeError", "boom"⟩) := by
  constructor
  · exact (C4_remote_fetch Nat remote.Data.notAsked
      (remote.Outcome.resolved 7) none).2.1 7 rfl
  · exact (C4_remote_fetch Nat remote.Data.notAsked
      (remote.Outcome.rejected ⟨"TypeError", "boom"⟩) none).2.2
      ⟨"TypeError", "boom"⟩ rfl (by decide)

/-- C7: the renderer helpers invoke exactly their named channels, the main
process registers a handler for each of these channels, `getVersion` resolves
to the application version, and `copyToClipboard` writes its text argument to
the system clipboard. -/
theorem C7_ipc_contract :
    ipc.getDirectoryPath.channel =
      native.RendererMessage.DIALOG_SHOWOPENDIALOG.channel ∧
    (∀ text : String, (ipc.copyToClipboard text).channel =
        native.RendererMessage.CLIPBOARD_WRITETEXT.channel ∧
      (ipc.copyToClipboard text).arg = some text) ∧
    (∀ p : String,
      (ipc.openPath p).channel = native.RendererMessage.OPEN_PATH.channel) ∧
    ipc.getVersion.channel = native.RendererMessage.GET_VERSION.channel ∧
    ipc.getDirectoryPath.channel ∈ native.registeredChannels ∧
    ipc.CLIPBOARD_WRITETEXT ∈ native.registeredChannels ∧
    ipc.OPEN_PATH ∈ native.registeredChannels ∧
    ipc.GET_VERSION ∈ native.registeredChannels ∧
    (∀ st : native.MainState, native.getVersionHandler st = st.appVersion) ∧
    (∀ (text : String) (st : native.MainState),
      (native.clipboardWriteTextHandler text st).clipboard = text) := by
  refine ⟨rfl, fun _ => ⟨rfl, rfl⟩, fun _ => rfl, rfl, ?_, ?_, ?_, ?_,
    fun _ => rfl, fun _ _ => rfl⟩ <;> decide

/-- C8: the `DIALOG_SHOWOPENDIALOG` handler resolves to `undefined` when no
window exists, to the single selected file path when the dialog result holds
exactly one path, and to the empty string when it holds zero or more than one
path. -/
theorem C8_dialog_handler :
    (∀ filePaths : List String,
      native.dialogShowOpenDialogHandler none filePaths = none) ∧
    (∀ p : String,
      native.dialogShowOpenDialogHandler (some ()) [p] = some p) ∧
    (∀ filePaths : List String, filePaths.length ≠ 1 →
      native.dialogShowOpenDialogHandler (some ()) filePaths = some "") := by
  refine ⟨fun _ => rfl, fun p => ?_, fun filePaths h => ?_⟩
  · simp [native.dialogShowOpenDialogHandler]
  · simp [native.dialogShowOpenDialogHandler, h]

/-- Witness for C8 at concrete dialog results. -/
theorem C8_dialog_handler_witness :
    ([] : List String).length ≠ 1 ∧
    native.dialogShowOpenDialogHandler (some ()) [] = some "" := by
  refine ⟨by decide, C8_dialog_handler.2.2 [] (by decide)⟩

/-- C9: the main process passes a URL to `shell.openExternal` only when the
URL, lowercased, starts with `http://` or `https://`, and it passes the URL
unmodified; the `will-navigate` and `new-window` handlers always prevent the
default action and route the URL through this check. -/
theorem C9_external_link_policy :
    (∀ url opened : String, native.openExternalLink url = some opened →
      opened = url ∧
        (native.jsStartsWith (native.jsToLowerCase url) "http://" ∨
          native.jsStartsWith (native.jsToLowerCase url) "https://")) ∧
    (∀ url : String, native.willNavigateHandler url =
      { preventedDefault := true,
        openedExternal := native.openExternalLink url }) ∧
    (∀ url : String, native.newWindowHandler url =
      { preventedDefault := true,
        openedExternal := native.openExternalLink url }) := by
  refine ⟨fun url opened h => ?_, fun _ => rfl, fun _ => rfl⟩
  unfold native.openExternalLink at h
  split at h
  · exact ⟨(Option.some_inj.mp h).symm, by assumption⟩
  · cases h

/-- Witness for C9 at a concrete URL. -/
theorem C9_external_link_policy_witness :
    native.openExternalLink "HTTPS://Example.com" = some "HTTPS://Example.com" ∧
    (native.jsStartsWith (native.jsToLowerCase "HTTPS://Example.com") "http://" ∨
      native.jsStartsWith (native.jsToLowerCase "HTTPS://Example.com")
        "https://") := by
  have h : native.openExternalLink "HTTPS://Example.com" =
      some "HTTPS://Example.com" := by decide
  exact ⟨h, (C9_external_link_policy.1 "HTTPS://Example.com"
    "HTTPS://Example.com" h).2⟩

namespace screen

open source

/-- The trace of `fetchCode` holds only abort and fetch-start events, never a
store write. -/
theorem setCode_not_in_fetchCode_trace (project : Project) (peer : User)
    (revision : Revision) (tree : Tree) (path : String) (res : FetchOutcome)
    (st : ScreenState) (c : Code) :
    Event.setCode c ∉ (fetchCode project peer revision tree path res st).2.2 := by
  unfold fetchCode
  cases h : st.pathStore.request <;> by_cases hp : path = "" <;>
    simp [h, hp]

end screen

/-- C2 counterexample: the claim says an Aborted result is never written into
the screen's code store, but `selectRevision` writes the code computed by
`fetchCode` unconditionally (`code.set(newCode)`, line 208); when that code
fetch is aborted, the screen's code store receives the Aborted view.  Run on
a concrete loaded screen, switching from `main` to `dev` while the inner code
fetch throws `AbortError`. -/
theorem C2_aborted_write_counterexample :
    screen.Event.setCode
        { lastCommit := screen.sampleCommit, path := "",
          view := screen.View.aborted } ∈
      (screen.selectRevision screen.devBranch
        (Except.ok { stats := { branches := 1, commits := 1, contributors := 1 },
                     history := [screen.sampleCommit] })
        (Except.ok screen.sampleTree)
        (screen.FetchOutcome.thrown { name := "AbortError", message := "aborted" })
        screen.sampleEnv screen.sampleScreenState).2 ∧
    (remote.unwrap (screen.selectRevision screen.devBranch
        (Except.ok { stats := { branches := 1, commits := 1, contributors := 1 },
                     history := [screen.sampleCommit] })
        (Except.ok screen.sampleTree)
        (screen.FetchOutcome.thrown { name := "AbortError", message := "aborted" })
        screen.sampleEnv screen.sampleScreenState).1.screenStore).map
      (fun d => d.code.view.kind) = some screen.ViewKind.Aborted := by
  decide

/-- C2 (amended): `error()` with a `RequestAbortError` code leaves the store
unchanged while any other code sets the Error state carrying that error; a
code fetch failing with `AbortError` yields the benign Aborted view rather
than the Error view; and `selectPath` never writes an Aborted result into the
screen's code store (`selectRevision`, by contrast, writes its fetched code
unconditionally, so an Aborted result can reach the code store when its code
fetch is superseded). -/
theorem C2_abort_errors_benign (T : Type) :
    (∀ (s : remote.Data T) (e : Error), e.code = Code.RequestAbortError →
      remote.errorUpdate e s = s) ∧
    (∀ (s : remote.Data T) (e : Error), e.code ≠ Code.RequestAbortError →
      remote.errorUpdate e s = remote.Data.error e) ∧
    (∀ (project : screen.Project) (peer : screen.User)
        (revision : source.Revision) (tree : source.Tree) (path : String)
        (st : screen.ScreenState) (e : Exception), e.name = "AbortError" →
      (screen.fetchCode project peer revision tree path
          (screen.FetchOutcome.thrown e) st).2.1.view = screen.View.aborted) ∧
    (∀ (path : String) (res : screen.FetchOutcome) (st : screen.ScreenState)
        (c : screen.Code),
      screen.Event.setCode c ∈ (screen.selectPath path res st).2 →
      c.view.kind ≠ screen.ViewKind.Aborted) := by
  refine ⟨fun s e h => ?_, fun s e h => ?_, fun project peer revision tree path st e h => ?_,
    fun path res st c hmem => ?_⟩
  · simp [remote.errorUpdate, h]
  · simp [remote.errorUpdate, h]
  · simp [screen.fetchCode, h]
  · obtain ⟨ps, ss, nid⟩ := st
    rcases ss with _ | _ | data | err
    · unfold screen.selectPath at hmem
      dsimp only at hmem
      exact absurd hmem (List.not_mem_nil _)
    · unfold screen.selectPath at hmem
      dsimp only at hmem
      exact absurd hmem (List.not_mem_nil _)
    · unfold screen.selectPath at hmem
      dsimp only at hmem
      by_cases hsel : ps.selected ≠ path
      · rw [if_pos hsel] at hmem
        by_cases hab :
            (screen.fetchCode data.project data.peer data.selectedRevision.selected
              data.tree path res
              { pathStore := ps, screenStore := remote.Data.success data,
                nextRequestId := nid }).2.1.view.kind ≠ screen.ViewKind.Aborted
        · rw [if_pos hab] at hmem
          dsimp only at hmem
          rcases List.mem_append.mp hmem with hin | hin
          · exact absurd hin (screen.setCode_not_in_fetchCode_trace _ _ _ _ _ _ _ _)
          · have hc := List.mem_singleton.mp hin
            injection hc with hc'
            subst hc'
            exact hab
        · rw [if_neg hab] at hmem
          dsimp only at hmem
          exact absurd hmem (screen.setCode_not_in_fetchCode_trace _ _ _ _ _ _ _ _)
      · rw [if_neg hsel] at hmem
        simp at hmem
    · unfold screen.selectPath at hmem
      dsimp only at hmem
      exact absurd hmem (List.not_mem_nil _)

/-- Witness for C2 at a concrete store, error, and concrete aborted code
fetch. -/
theorem C2_abort_errors_benign_witness :
    remote.errorUpdate { code := Code.RequestAbortError, message := "aborted" }
        (remote.Data.loading : remote.Data Nat) = remote.Data.loading ∧
    (screen.fetchCode { urn := "rad:git:project", defaultBranch := "main" }
        { peerId := "peer1" } screen.mainBranch screen.sampleTree ""
        (screen.FetchOutcome.thrown { name := "AbortError", message := "x" })
        screen.sampleScreenState).2.1.view = screen.View.aborted := by
  constructor
  · exact (C2_abort_errors_benign Nat).1 _ _ rfl
  · exact (C2_abort_errors_benign Nat).2.2.1 _ _ _ _ _ _ _ rfl

/-- C3: `selectRevision` on a loaded screen aborts the request recorded for
the current revision selection before the new tree/blob fetch begins; called
with the already-selected revision (same type and name) it performs no fetch
and leaves all state unchanged; and `fetchCode` aborts the request recorded
in the selected-path store before starting its own fetch. -/
theorem C3_superseded_requests_aborted (revision : source.Revision)
    (commitsRes : Except Exception source.CommitsHistory)
    (treeRes : Except Exception source.Tree) (codeRes : screen.FetchOutcome)
    (env : screen.JsDate) (st : screen.ScreenState) (data : screen.ScreenData)
    (hscreen : st.screenStore = remote.Data.success data) :
    (data.selectedRevision.selected.type = revision.type →
      data.selectedRevision.selected.name = revision.name →
      screen.selectRevision revision commitsRes treeRes codeRes env st = (st, [])) ∧
    (∀ id : source.RequestId, data.selectedRevision.request = some id →
      ¬(data.selectedRevision.selected.type = revision.type ∧
          data.selectedRevision.selected.name = revision.name) →
      ∃ rest, (screen.selectRevision revision commitsRes treeRes codeRes env st).2 =
        screen.Event.abortReq id :: screen.Event.fetchCommitsEv revision ::
          screen.Event.fetchTreeEv revision (some st.nextRequestId) :: rest) ∧
    (∀ (project : screen.Project) (peer : screen.User) (rev : source.Revision)
        (tree : source.Tree) (path : String) (res : screen.FetchOutcome)
        (id : source.RequestId), st.pathStore.request = some id →
      (screen.fetchCode project peer rev tree path res st).2.2 =
        [screen.Event.abortReq id,
          if path = "" then screen.Event.fetchReadmeEv rev st.nextRequestId
          else screen.Event.fetchBlobEv path rev st.nextRequestId]) := by
  obtain ⟨ps, ss, nid⟩ := st
  dsimp only at hscreen
  subst hscreen
  refine ⟨fun hty hname => ?_, fun id hid hne => ?_,
    fun project peer rev tree path res id hid => ?_⟩
  · unfold screen.selectRevision
    dsimp only
    rw [if_pos ⟨hty, hname⟩]
  · unfold screen.selectRevision
    dsimp only
    rw [if_neg hne, hid]
    rcases commitsRes with err | history <;> rcases treeRes with err2 | newTree <;>
      exact ⟨_, rfl⟩
  · obtain ⟨psr, pss⟩ := ps
    dsimp only at hid
    subst hid
    unfold screen.fetchCode
    by_cases hp : path = "" <;> simp [hp]

/-- Witness for C3 on concrete screens: a same-revision call is a no-op, a
revision switch's trace starts with the abort of the in-flight request, and a
concrete `fetchCode` aborts the path store's request before its blob fetch. -/
theorem C3_superseded_requests_aborted_witness :
    screen.selectRevision screen.mainBranch
        (Except.ok { stats := { branches := 1, commits := 1, contributors := 1 },
                     history := [] })
        (Except.ok screen.sampleTree) (screen.FetchOutcome.readme none)
        screen.sampleEnv screen.busyScreenState = (screen.busyScreenState, []) ∧
    ((screen.selectRevision screen.devBranch
        (Except.ok { stats := { branches := 1, commits := 1, contributors := 1 },
                     history := [] })
        (Except.ok screen.sampleTree) (screen.FetchOutcome.readme none)
        screen.sampleEnv screen.busyScreenState).2.head? =
      some (screen.Event.abortReq 5)) ∧
    (screen.fetchCode { urn := "rad:git:project", defaultBranch := "main" }
        { peerId := "peer1" } screen.devBranch screen.sampleTree "src/main.rs"
        (screen.FetchOutcome.readme none) screen.busyScreenState).2.2 =
      [screen.Event.abortReq 4,
        screen.Event.fetchBlobEv "src/main.rs" screen.devBranch 6] := by
  refine ⟨?_, ?_, ?_⟩
  · exact (C3_superseded_requests_aborted screen.mainBranch _ _ _ _
      screen.busyScreenState screen.busyScreenData rfl).1 rfl rfl
  · obtain ⟨rest, hrest⟩ := (C3_superseded_requests_aborted screen.devBranch _ _ _ _
      screen.busyScreenState screen.busyScreenData rfl).2.1 5 rfl (by decide)
    rw [hrest]
    rfl
  · have h := (C3_superseded_requests_aborted screen.devBranch
      (Except.ok { stats := { branches := 1, commits := 1, contributors := 1 },
                   history := [] })
      (Except.ok screen.sampleTree) (screen.FetchOutcome.readme none)
      screen.sampleEnv screen.busyScreenState screen.busyScreenData rfl).2.2
      { urn := "rad:git:project", defaultBranch := "main" } { peerId := "peer1" }
      screen.devBranch screen.sampleTree "src/main.rs"
      (screen.FetchOutcome.readme none) 4 rfl
    simpa using h

namespace screen

open source

/-- `pushLast` on a list with an exposed last element appends to that
element. -/
theorem pushLast_concat (c : CommitHeader) (gs : List CommitGroup)
    (g : CommitGroup) :
    pushLast c (gs ++ [g]) = gs ++ [{ g with commits := g.commits ++ [c] }] := by
  induction gs with
  | nil => rfl
  | cons a as ih =>
      cases as with
      | nil => rfl
      | cons b bs =>
          calc pushLast c ((a :: b :: bs) ++ [g])
              = a :: pushLast c ((b :: bs) ++ [g]) := rfl
            _ = a :: ((b :: bs) ++ [{ g with commits := g.commits ++ [c] }]) := by
                rw [ih]
            _ = (a :: b :: bs) ++ [{ g with commits := g.commits ++ [c] }] := rfl

/-- On a nonempty group list, `pushLast` appends the commit to the
concatenation of the groups' commits. -/
theorem join_pushLast (c : CommitHeader) (gs : List CommitGroup)
    (hgs : gs ≠ []) :
    ((pushLast c gs).map CommitGroup.commits).flatten =
      (gs.map CommitGroup.commits).flatten ++ [c] := by
  induction gs with
  | nil => exact absurd rfl hgs
  | cons a as ih =>
      cases as with
      | nil => simp [pushLast]
      | cons b bs =>
          have hstep : pushLast c (a :: b :: bs) = a :: pushLast c (b :: bs) := rfl
          rw [hstep]
          simp only [List.map_cons, List.flatten_cons, ih (by simp)]
          simp [List.append_assoc]

/-- A `groupStep` iteration appends exactly the processed commit to the
concatenation of the groups' commits, and yields a nonempty group list. -/
theorem join_groupStep (env : JsDate) (st : List CommitGroup × Option Day)
    (c : CommitHeader) :
    (((groupStep env st c).1.map CommitGroup.commits).flatten =
      (st.1.map CommitGroup.commits).flatten ++ [c]) ∧
    (groupStep env st c).1 ≠ [] := by
  unfold groupStep
  dsimp only
  by_cases hnew : isNewDay st.1 st.2 (env.civil (c.committerTime * 1000)) = true
  · rw [if_pos hnew]
    constructor
    · rw [join_pushLast c
        (st.1 ++ [({ time := env.fmt (c.committerTime * 1000), commits := [] }
          : CommitGroup)]) (by simp)]
      simp
    · rw [pushLast_concat]
      simp
  · rw [if_neg hnew]
    rcases hst : st.1 with _ | ⟨g, gs⟩
    · exact absurd (by rw [hst]; rfl) hnew
    · refine ⟨join_pushLast c (g :: gs) (by simp), ?_⟩
      cases gs <;> simp [pushLast]

/-- Folding the grouping loop from a nonempty group list appends exactly the
processed commits. -/
theorem join_foldl_groupStep (env : JsDate) :
    ∀ (cs : List CommitHeader) (gs : List CommitGroup) (od : Option Day),
      gs ≠ [] →
      (((cs.foldl (groupStep env) (gs, od)).1.map CommitGroup.commits).flatten =
        (gs.map CommitGroup.commits).flatten ++ cs) := by
  intro cs
  induction cs with
  | nil => intro gs od _; simp
  | cons c cs ih =>
      intro gs od hgs
      rw [List.foldl_cons]
      have hstep := join_groupStep env (gs, od) c
      have hrec := ih (groupStep env (gs, od) c).1 (groupStep env (gs, od) c).2
        hstep.2
      rw [show (((groupStep env (gs, od) c).1, (groupStep env (gs, od) c).2)
          : List CommitGroup × Option Day) = groupStep env (gs, od) c from rfl]
        at hrec
      rw [hrec, hstep.1]
      simp

/-- Concatenating the groups of `groupCommits` in order recovers the sorted
input. -/
theorem groupCommits_join (env : JsDate) (commits : List CommitHeader) :
    ((groupCommits env commits).map CommitGroup.commits).flatten =
      sortByTime commits := by
  unfold groupCommits
  rcases hs : sortByTime commits with _ | ⟨c, cs⟩
  · rfl
  · rw [List.foldl_cons]
    have hstep : groupStep env ([], none) c =
        ([({ time := env.fmt (c.committerTime * 1000), commits := [c] }
            : CommitGroup)],
          some (env.civil (c.committerTime * 1000))) := rfl
    rw [hstep, join_foldl_groupStep env cs _ _ (by simp)]
    simp

/-- On a nonempty group list, the current group's day never counts as a new
day. -/
theorem isNewDay_same (gs : List CommitGroup) (hgs : gs ≠ []) (d : Day) :
    isNewDay gs (some d) d = false := by
  cases gs with
  | nil => exact absurd rfl hgs
  | cons g gs' =>
      unfold isNewDay
      simp

/-- Under the lexicographic bound `date ≤ gd`, a distinct date always counts
as a new day. -/
theorem isNewDay_ne (gs : List CommitGroup) (gd date : Day)
    (hle : Day.le date gd) (hne : date ≠ gd) :
    isNewDay gs (some gd) date = true := by
  obtain ⟨dy, dm, dd⟩ := date
  obtain ⟨gy, gm, gdd⟩ := gd
  unfold Day.le at hle
  dsimp only at hle
  simp only [ne_eq, Day.mk.injEq, not_and] at hne
  cases gs with
  | nil => rfl
  | cons g gs' =>
      simp only [isNewDay, List.isEmpty_cons, Option.isNone_some, Bool.false_or,
        Bool.or_eq_true, decide_eq_true_eq]
      omega

/-- Over a sorted tail all of whose days are bounded by the current group's
day, the grouping fold agrees with `chunkGo`. -/
theorem foldl_groupStep_chunkGo (env : JsDate)
    (hmono : ∀ t t' : Int, t ≤ t' → Day.le (env.civil t) (env.civil t')) :
    ∀ (cs : List CommitHeader) (gs : List CommitGroup) (acc : CommitGroup)
      (d : Day), (∀ x ∈ cs, Day.le (dayOf env x) d) →
      List.Sorted timeGe cs →
      (cs.foldl (groupStep env) (gs ++ [acc], some d)).1 =
        gs ++ chunkGo env d acc cs := by
  intro cs
  induction cs with
  | nil => intro gs acc d _ _; simp [chunkGo]
  | cons c cs ih =>
      intro gs acc d hle hsorted
      obtain ⟨hc, hcs⟩ := List.sorted_cons.mp hsorted
      rw [List.foldl_cons]
      by_cases hd : dayOf env c = d
      · have hd' : env.civil (c.committerTime * 1000) = d := hd
        have hstep : groupStep env (gs ++ [acc], some d) c =
            (gs ++ [{ acc with commits := acc.commits ++ [c] }], some d) := by
          unfold groupStep
          dsimp only
          rw [hd', isNewDay_same (gs ++ [acc]) (by simp) d, if_neg (by simp),
            pushLast_concat]
        rw [hstep, ih gs _ d (fun x hx => hle x (List.mem_cons_of_mem c hx)) hcs]
        simp only [chunkGo]
        rw [if_pos hd]
      · have hledc : Day.le (dayOf env c) d := hle c (List.mem_cons_self c cs)
        have hd' : env.civil (c.committerTime * 1000) = dayOf env c := rfl
        have hstep : groupStep env (gs ++ [acc], some d) c =
            ((gs ++ [acc]) ++
                [({ time := env.fmt (c.committerTime * 1000), commits := [c] }
                  : CommitGroup)],
              some (dayOf env c)) := by
          unfold groupStep
          dsimp only
          rw [hd', isNewDay_ne (gs ++ [acc]) d (dayOf env c) hledc hd,
            if_pos rfl, pushLast_concat]
          rfl
        have hle' : ∀ x ∈ cs, Day.le (dayOf env x) (dayOf env c) := fun x hx =>
          hmono _ _ (mul_le_mul_of_nonneg_right (hc x hx) (by norm_num))
        rw [hstep, ih (gs ++ [acc]) _ (dayOf env c) hle' hcs]
        simp only [chunkGo]
        rw [if_neg hd]
        simp

/-- `groupCommits` agrees with day-chunking of the sorted commit list. -/
theorem groupCommits_eq_chunkGo (env : JsDate)
    (hmono : ∀ t t' : Int, t ≤ t' → Day.le (env.civil t) (env.civil t'))
    (commits : List CommitHeader) (c : CommitHeader) (cs : List CommitHeader)
    (hs : sortByTime commits = c :: cs) :
    groupCommits env commits =
      chunkGo env (dayOf env c)
        { time := env.fmt (c.committerTime * 1000), commits := [c] } cs := by
  unfold groupCommits
  rw [hs, List.foldl_cons]
  have hsorted : List.Sorted timeGe (c :: cs) := by
    rw [← hs]; exact List.sorted_insertionSort timeGe commits
  obtain ⟨hc, hcs⟩ := List.sorted_cons.mp hsorted
  have hstep : groupStep env ([], none) c =
      ([] ++ [({ time := env.fmt (c.committerTime * 1000), commits := [c] }
          : CommitGroup)],
        some (dayOf env c)) := rfl
  rw [hstep, foldl_groupStep_chunkGo env hmono cs [] _ (dayOf env c)
    (fun x hx => hmono _ _ (mul_le_mul_of_nonneg_right (hc x hx) (by norm_num)))
    hcs]
  simp

/-- All commits of a `chunkGo` group share one calendar day, provided the
accumulator does. -/
theorem chunkGo_same_day (env : JsDate) :
    ∀ (cs : List CommitHeader) (acc : CommitGroup) (d : Day),
      (∀ x ∈ acc.commits, dayOf env x = d) →
      ∀ g ∈ chunkGo env d acc cs, ∀ x ∈ g.commits, ∀ y ∈ g.commits,
        dayOf env x = dayOf env y := by
  intro cs
  induction cs with
  | nil =>
      intro acc d hacc g hg x hx y hy
      simp only [chunkGo, List.mem_singleton] at hg
      subst hg
      rw [hacc x hx, hacc y hy]
  | cons c cs ih =>
      intro acc d hacc g hg x hx y hy
      simp only [chunkGo] at hg
      by_cases hd : dayOf env c = d
      · rw [if_pos hd] at hg
        refine ih _ d ?_ g hg x hx y hy
        intro z hz
        rcases List.mem_append.mp hz with h | h
        · exact hacc z h
        · rw [List.mem_singleton.mp h]; exact hd
      · rw [if_neg hd] at hg
        rcases List.mem_cons.mp hg with hg | hg
        · subst hg; rw [hacc x hx, hacc y hy]
        · refine ih _ (dayOf env c) ?_ g hg x hx y hy
          intro z hz
          rw [List.mem_singleton.mp hz]

/-- The first `chunkGo` group carries the accumulator's day. -/
theorem chunkGo_head_day (env : JsDate) :
    ∀ (cs : List CommitHeader) (acc : CommitGroup) (d : Day) (g : CommitGroup),
      (∀ x ∈ acc.commits, dayOf env x = d) →
      (chunkGo env d acc cs).head? = some g →
      ∀ x ∈ g.commits, dayOf env x = d := by
  intro cs
  induction cs with
  | nil =>
      intro acc d g hacc hg
      simp only [chunkGo, List.head?_cons, Option.some.injEq] at hg
      subst hg
      exact hacc
  | cons c cs ih =>
      intro acc d g hacc hg
      simp only [chunkGo] at hg
      by_cases hd : dayOf env c = d
      · rw [if_pos hd] at hg
        refine ih _ d g ?_ hg
        intro z hz
        rcases List.mem_append.mp hz with h | h
        · exact hacc z h
        · rw [List.mem_singleton.mp h]; exact hd
      · rw [if_neg hd] at hg
        simp only [List.head?_cons, Option.some.injEq] at hg
        subst hg
        exact hacc

/-- Adjacent `chunkGo` groups lie on distinct days, newest first. -/
theorem chunkGo_chain (env : JsDate)
    (hmono : ∀ t t' : Int, t ≤ t' → Day.le (env.civil t) (env.civil t')) :
    ∀ (cs : List CommitHeader) (acc : CommitGroup) (d : Day),
      (∀ x ∈ acc.commits, dayOf env x = d) →
      (∀ x ∈ cs, Day.le (dayOf env x) d) →
      List.Sorted timeGe cs →
      List.Chain' (fun g g' => ∀ x ∈ g.commits, ∀ y ∈ g'.commits,
          dayOf env x ≠ dayOf env y ∧ Day.le (dayOf env y) (dayOf env x))
        (chunkGo env d acc cs) := by
  intro cs
  induction cs with
  | nil => intro acc d _ _ _; simp [chunkGo]
  | cons c cs ih =>
      intro acc d hacc hle hsorted
      obtain ⟨hc, hcs⟩ := List.sorted_cons.mp hsorted
      simp only [chunkGo]
      by_cases hd : dayOf env c = d
      · rw [if_pos hd]
        refine ih _ d ?_ (fun x hx => hle x (List.mem_cons_of_mem c hx)) hcs
        intro z hz
        rcases List.mem_append.mp hz with h | h
        · exact hacc z h
        · rw [List.mem_singleton.mp h]; exact hd
      · rw [if_neg hd]
        have hle' : ∀ x ∈ cs, Day.le (dayOf env x) (dayOf env c) := fun x hx =>
          hmono _ _ (mul_le_mul_of_nonneg_right (hc x hx) (by norm_num))
        refine List.chain'_cons'.mpr
          ⟨?_, ih _ (dayOf env c)
            (fun z hz => by rw [List.mem_singleton.mp hz]) hle' hcs⟩
        intro g hg x hx y hy
        have hyday : dayOf env y = dayOf env c :=
          chunkGo_head_day env cs _ (dayOf env c) g
            (fun z hz => by rw [List.mem_singleton.mp hz]) hg y hy
        have hxday : dayOf env x = d := hacc x hx
        rw [hxday, hyday]
        exact ⟨fun hh => hd hh.symm, hle c (List.mem_cons_self c cs)⟩

end screen

/-- C5: `groupCommits` returns groups whose concatenation is the input sorted
in non-increasing `committerTime` order, every commit in a group falls on the
same calendar day (computed from `committerTime * 1000` as a local date),
adjacent groups lie on distinct days with the newest day first, and
`groupCommitHistory` preserves the stats of the fetched history.  The local
calendar conversion `env.civil` is assumed monotone (later instants never map
to earlier calendar days). -/
theorem C5_group_commits_by_day (env : screen.JsDate)
    (commits : List source.CommitHeader)
    (hmono : ∀ t t' : Int, t ≤ t' →
      screen.Day.le (env.civil t) (env.civil t')) :
    (((screen.groupCommits env commits).map
        screen.CommitGroup.commits).flatten = screen.sortByTime commits) ∧
    (screen.sortByTime commits).Perm commits ∧
    List.Sorted screen.timeGe (screen.sortByTime commits) ∧
    (∀ g ∈ screen.groupCommits env commits, ∀ x ∈ g.commits, ∀ y ∈ g.commits,
      screen.dayOf env x = screen.dayOf env y) ∧
    List.Chain' (fun g g' => ∀ x ∈ g.commits, ∀ y ∈ g'.commits,
        screen.dayOf env x ≠ screen.dayOf env y ∧
          screen.Day.le (screen.dayOf env y) (screen.dayOf env x))
      (screen.groupCommits env commits) ∧
    (∀ h : source.CommitsHistory,
      (screen.groupCommitHistory env h).stats = h.stats) := by
  refine ⟨screen.groupCommits_join env commits,
    List.perm_insertionSort screen.timeGe commits,
    List.sorted_insertionSort screen.timeGe commits, ?_, ?_, fun _ => rfl⟩
  · intro g hg x hx y hy
    rcases hs : screen.sortByTime commits with _ | ⟨c, cs⟩
    · have hnil : screen.groupCommits env commits = [] := by
        unfold screen.groupCommits; rw [hs]; rfl
      rw [hnil] at hg
      exact absurd hg (List.not_mem_nil g)
    · rw [screen.groupCommits_eq_chunkGo env hmono commits c cs hs] at hg
      exact screen.chunkGo_same_day env cs _ (screen.dayOf env c)
        (fun z hz => by rw [List.mem_singleton.mp hz]) g hg x hx y hy
  · rcases hs : screen.sortByTime commits with _ | ⟨c, cs⟩
    · have hnil : screen.groupCommits env commits = [] := by
        unfold screen.groupCommits; rw [hs]; rfl
      rw [hnil]
      exact List.chain'_nil
    · rw [screen.groupCommits_eq_chunkGo env hmono commits c cs hs]
      have hsorted : List.Sorted screen.timeGe (c :: cs) := by
        rw [← hs]; exact List.sorted_insertionSort screen.timeGe commits
      obtain ⟨hc, hcs⟩ := List.sorted_cons.mp hsorted
      exact screen.chunkGo_chain env hmono cs _ (screen.dayOf env c)
        (fun z hz => by rw [List.mem_singleton.mp hz])
        (fun x hx =>
          hmono _ _ (mul_le_mul_of_nonneg_right (hc x hx) (by norm_num)))
        hcs

/-- Witness for C5 at a concrete calendar environment and commit list. -/
theorem C5_group_commits_by_day_witness :
    (((screen.groupCommits screen.sampleEnv [screen.sampleCommit]).map
        screen.CommitGroup.commits).flatten =
      screen.sortByTime [screen.sampleCommit]) ∧
    (screen.sortByTime [screen.sampleCommit]).Perm [screen.sampleCommit] := by
  have hmono : ∀ t t' : Int, t ≤ t' →
      screen.Day.le (screen.sampleEnv.civil t) (screen.sampleEnv.civil t') :=
    fun _ _ _ => Or.inr ⟨rfl, Or.inr ⟨rfl, le_refl 0⟩⟩
  exact ⟨(C5_group_commits_by_day screen.sampleEnv [screen.sampleCommit]
      hmono).1,
    (C5_group_commits_by_day screen.sampleEnv [screen.sampleCommit]
      hmono).2.1⟩

namespace screen

/-- `findIndex` yields `-1` when no element matches. -/
theorem jsFindIndex_eq_neg_one {α : Type} (p : α → Bool) :
    ∀ l : List α, (∀ a ∈ l, p a = false) → jsFindIndex p l = -1 := by
  intro l
  induction l with
  | nil => intro _; rfl
  | cons a as ih =>
      intro h
      unfold jsFindIndex
      rw [h a (List.mem_cons_self a as)]
      rw [ih (fun x hx => h x (List.mem_cons_of_mem a hx))]
      simp

/-- `findIndex` of a present element is the length of the longest
non-matching prefix, a non-negative index. -/
theorem jsFindIndex_found {α : Type} (p : α → Bool) :
    ∀ l : List α, (∃ a ∈ l, p a = true) →
      jsFindIndex p l = ((l.takeWhile fun a => !p a).length : Int) ∧
        0 ≤ jsFindIndex p l := by
  intro l
  induction l with
  | nil => intro h; simp at h
  | cons a as ih =>
      intro h
      by_cases hpa : p a = true
      · unfold jsFindIndex
        rw [hpa]
        simp [List.takeWhile_cons, hpa]
      · have has : ∃ x ∈ as, p x = true := by
          rcases h with ⟨x, hx, hpx⟩
          rcases List.mem_cons.mp hx with rfl | hx'
          · exact absurd hpx hpa
          · exact ⟨x, hx', hpx⟩
        obtain ⟨heq, hge⟩ := ih has
        have hpa' : p a = false := by
          cases hval : p a
          · rfl
          · exact absurd hval hpa
        unfold jsFindIndex
        rw [hpa']
        rw [heq] at hge ⊢
        have hne : ((as.takeWhile fun a => !p a).length : Int) ≠ -1 := by omega
        simp only [Bool.false_eq_true, if_false, hne, List.takeWhile_cons, hpa',
          Bool.not_false, if_true]
        simp
        omega

/-- Taking the length of a `takeWhile` prefix recovers that prefix. -/
theorem take_takeWhile_length {α : Type} (q : α → Bool) (l : List α) :
    l.take (l.takeWhile q).length = l.takeWhile q := by
  induction l with
  | nil => rfl
  | cons a as ih =>
      by_cases hq : q a = true <;> simp [List.takeWhile_cons, hq, ih]

end screen

/-- C6: `fetchMergeRequestCommits` publishes exactly the prefix of the
merge-request commit list that precedes the first commit whose sha1 equals
the default branch's latest commit sha1 (as the multiset of commits of the
published groups); it publishes the empty list when that sha1 does not occur
in the merge-request history or when the default branch has no commits; and
the published `stats.commits` always equals the number of published
commits. -/
theorem C6_merge_request_commits (env : screen.JsDate)
    (base mr : source.CommitsHistory) :
    (base.history = [] →
      (screen.mergeRequestCommitsCore env base mr).history = [] ∧
      (screen.mergeRequestCommitsCore env base mr).stats.commits = 0) ∧
    (∀ c0 : source.CommitHeader, base.history.head? = some c0 →
      (∀ ch ∈ mr.history, ch.sha1 ≠ c0.sha1) →
      (screen.mergeRequestCommitsCore env base mr).history = [] ∧
      (screen.mergeRequestCommitsCore env base mr).stats.commits = 0) ∧
    (∀ c0 : source.CommitHeader, base.history.head? = some c0 →
      (∃ ch ∈ mr.history, ch.sha1 = c0.sha1) →
      ((((screen.mergeRequestCommitsCore env base mr).history.map
          screen.CommitGroup.commits).flatten).Perm
        (mr.history.takeWhile (fun ch => ch.sha1 ≠ c0.sha1)) ∧
      (screen.mergeRequestCommitsCore env base mr).stats.commits =
        (mr.history.takeWhile (fun ch => ch.sha1 ≠ c0.sha1)).length)) ∧
    ((((screen.mergeRequestCommitsCore env base mr).history.map
        screen.CommitGroup.commits).flatten).length =
      (screen.mergeRequestCommitsCore env base mr).stats.commits) := by
  have hgen : ∀ N : List source.CommitHeader,
      (((screen.groupCommits env N).map
        screen.CommitGroup.commits).flatten).length = N.length := by
    intro N
    rw [screen.groupCommits_join]
    exact (List.perm_insertionSort screen.timeGe N).length_eq
  refine ⟨fun hb => ?_, fun c0 hc0 hnone => ?_, fun c0 hc0 hex => ?_, ?_⟩
  · unfold screen.mergeRequestCommitsCore
    rw [hb]
    exact ⟨rfl, rfl⟩
  · have hidx : screen.jsFindIndex
        (fun ch => decide (ch.sha1 = c0.sha1)) mr.history = -1 :=
      screen.jsFindIndex_eq_neg_one _ mr.history
        (fun ch h => decide_eq_false (hnone ch h))
    unfold screen.mergeRequestCommitsCore
    rw [hc0]
    dsimp only
    rw [hidx]
    exact ⟨rfl, rfl⟩
  · have hex' : ∃ a ∈ mr.history, (fun ch => decide (ch.sha1 = c0.sha1)) a
        = true := by
      rcases hex with ⟨ch, hch, hsha⟩
      exact ⟨ch, hch, decide_eq_true hsha⟩
    obtain ⟨heq, hge⟩ := screen.jsFindIndex_found
      (fun ch => decide (ch.sha1 = c0.sha1)) mr.history hex'
    have hne : ((mr.history.takeWhile
        fun a => !(decide (a.sha1 = c0.sha1))).length : Int) ≠ -1 := by
      omega
    have hpred : (fun ch : source.CommitHeader =>
        decide (ch.sha1 ≠ c0.sha1)) =
        (fun ch : source.CommitHeader => !(decide (ch.sha1 = c0.sha1))) := by
      funext ch
      simp [decide_not]
    have hcore : screen.mergeRequestCommitsCore env base mr =
        { history := screen.groupCommits env
            (mr.history.takeWhile fun a => !(decide (a.sha1 = c0.sha1))),
          stats := { mr.stats with commits := (mr.history.takeWhile
            fun a => !(decide (a.sha1 = c0.sha1))).length } } := by
      unfold screen.mergeRequestCommitsCore
      rw [hc0]
      dsimp only
      rw [heq, if_neg hne, Int.toNat_natCast, screen.take_takeWhile_length]
    rw [hcore, hpred]
    dsimp only
    constructor
    · rw [screen.groupCommits_join]
      exact List.perm_insertionSort screen.timeGe _
    · rfl
  · unfold screen.mergeRequestCommitsCore
    dsimp only
    exact hgen _

/-- Witness for C6 on a concrete base history and merge-request history. -/
theorem C6_merge_request_commits_witness :
    (((screen.mergeRequestCommitsCore screen.sampleEnv
        { stats := { branches := 1, commits := 1, contributors := 1 },
          history := [screen.sampleCommit] }
        { stats := { branches := 1, commits := 2, contributors := 1 },
          history := [screen.sampleCommitB, screen.sampleCommit] }).history.map
        screen.CommitGroup.commits).flatten).Perm
      ([screen.sampleCommitB, screen.sampleCommit].takeWhile
        (fun ch => ch.sha1 ≠ screen.sampleCommit.sha1)) ∧
    (screen.mergeRequestCommitsCore screen.sampleEnv
        { stats := { branches := 1, commits := 1, contributors := 1 },
          history := [screen.sampleCommit] }
        { stats := { branches := 1, commits := 2, contributors := 1 },
          history := [screen.sampleCommitB, screen.sampleCommit] }).stats.commits =
      ([screen.sampleCommitB, screen.sampleCommit].takeWhile
        (fun ch => ch.sha1 ≠ screen.sampleCommit.sha1)).length := by
  exact (C6_merge_request_commits screen.sampleEnv
      { stats := { branches := 1, commits := 1, contributors := 1 },
        history := [screen.sampleCommit] }
      { stats := { branches := 1, commits := 2, contributors := 1 },
        history := [screen.sampleCommitB, screen.sampleCommit] }).2.2.1
    screen.sampleCommit rfl
    ⟨screen.sampleCommit, by simp, rfl⟩

/-- C10 counterexample: the claim says `routeStore` yields `{ type: "empty" }`
exactly when the history is empty, but pushing the representable route
`{ type: "empty" }` gives a nonempty history on which `routeStore` still
yields `{ type: "empty" }`. -/
theorem C10_routeStore_counterexample :
    router.routeStore [router.Route.empty] = router.Route.empty ∧
    ([router.Route.empty] : List router.Route) ≠ [] := by
  decide

/-- C10 (amended): `pop` after `push r` restores the history, `pop` on the
empty history yields the empty history, and `routeStore` yields
`{ type: "empty" }` on the empty history and the last pushed route on a
nonempty one (that route may itself be `{ type: "empty" }`). -/
theorem C10_router_history :
    (∀ (h : List router.Route) (r : router.Route),
      router.pop (router.push r h) = h) ∧
    router.pop ([] : List router.Route) = [] ∧
    router.routeStore ([] : List router.Route) = router.Route.empty ∧
    (∀ (h : List router.Route) (r : router.Route),
      router.routeStore (router.push r h) = r) := by
  refine ⟨fun h r => ?_, rfl, rfl, fun h r => ?_⟩
  · simp [router.pop, router.push]
  · simp [router.routeStore, router.push]

end Upstream
